import Mathlib

/-!
Shallow embedding of the knowledge-state mastery/priority/decay engine and the
retroactive bootstrap analyzer of the `skill-issue` repository
(`src/skill_issue/knowledge_state.py` and `src/skill_issue/analyzer.py`).

Python floats are modelled as rationals (`ℚ`), timestamps as integer epoch
seconds (`ℤ`, with `Option` for nullable `last_seen`), Python dicts as
insertion-ordered association lists with unique keys (lookup finds the first
binding; setting an existing key keeps its position, setting a fresh key
appends at the end — exactly Python's dict semantics), and Python exceptions
(`FileNotFoundError` from `load_graph`) as `Except String`.  File persistence
(`load_state`/`save_state`) is modelled by explicit state passing; where the
source interleaves in-memory mutation with reloads from disk, the model
threads both the "disk" and the "in-memory" state (see
`apply_analysis_to_state`).
-/

/- Batteries marks rational arithmetic `@[irreducible]`; restore the default
reducibility so that concrete states evaluate with `decide`. -/
attribute [local semireducible] Rat.mul Rat.add Rat.sub Rat.inv

namespace SkillIssue

/-- Python dict with `String` keys: insertion-ordered association list. -/
abbrev Dict (β : Type) := List (String × β)

/-- First binding for a key, like Python `d[k]` / `d.get(k)`. -/
def dictGet {β : Type} (d : Dict β) (k : String) : Option β :=
  match d with
  | [] => none
  | (k', v) :: rest => if k' = k then some v else dictGet rest k

/-- Python `k in d`. -/
def dictContains {β : Type} (d : Dict β) (k : String) : Bool :=
  (dictGet d k).isSome

/-- Python `d[k] = v`: overwrite in place if present, else append at the end. -/
def dictSet {β : Type} (d : Dict β) (k : String) (v : β) : Dict β :=
  match d with
  | [] => [(k, v)]
  | (k', v') :: rest => if k' = k then (k, v) :: rest else (k', v') :: dictSet rest k v

/-- Map a function over every value of a dict, keeping keys and order. -/
def dictMapValues {β γ : Type} (f : β → γ) (d : Dict β) : Dict γ :=
  d.map (fun p => (p.1, f p.2))

/-! ### Data model (knowledge_state.py) -/

/-- `EMA_ALPHA = 0.3` (knowledge_state.py line 14). -/
def EMA_ALPHA : ℚ := 3/10

/-- `DECAY_GRACE_DAYS = 3` (line 17). -/
def DECAY_GRACE_DAYS : ℤ := 3

/-- `DECAY_RATE_PER_DAY = 0.02` (line 18). -/
def DECAY_RATE_PER_DAY : ℚ := 2/100

/-- One per-node mutable mastery record (the per-node dicts of
`knowledge_state.json`): `mastery`, `attempts`, `last_seen`, `status`. -/
structure MasteryRecord where
  mastery : ℚ
  attempts : ℕ
  last_seen : Option ℤ
  status : String
  deriving DecidableEq, Repr

/-- The fresh record created by `init_domain` / `update_node`
(lines 70-75 and 122-127). -/
def zeroRecord : MasteryRecord :=
  { mastery := 0, attempts := 0, last_seen := none, status := "weak" }

/-- A node of a domain's static concept graph (only the fields the core
reads: `id`, `name`, `reuse_weight`). -/
structure GraphNode where
  id : String
  name : String
  reuse_weight : ℚ
  deriving DecidableEq, Repr

/-- A domain's static concept graph: `{"nodes": [...]}`. -/
structure Graph where
  nodes : List GraphNode
  deriving DecidableEq, Repr

/-- Per-domain slice of the user state: `{"nodes": {...}}`. -/
structure DomainState where
  nodes : Dict MasteryRecord
  deriving DecidableEq, Repr

/-- The whole persisted user state: `{"domains": {...}}`. -/
structure KState where
  domains : Dict DomainState
  deriving DecidableEq, Repr

/-- The graph store: the JSON files under `references/knowledge_graphs/`;
`none` models a missing `<domain>.json` file. -/
abbrev Graphs := String → Option Graph

/-- Python `max(a, b)` on two rationals. -/
def pymax (a b : ℚ) : ℚ := if a < b then b else a

/-- Python `min(a, b)` on two rationals. -/
def pymin (a b : ℚ) : ℚ := if b < a then b else a

/-- `load_graph` (lines 29-35): raises `FileNotFoundError` when the
domain's graph file does not exist. -/
def load_graph (graphs : Graphs) (domain : String) : Except String Graph :=
  match graphs domain with
  | some g => .ok g
  | none => .error "Knowledge graph not found"

/-- Record lookup through both levels of the state document. -/
def lookupRecord (state : KState) (domain nodeId : String) : Option MasteryRecord :=
  match dictGet state.domains domain with
  | none => none
  | some ds => dictGet ds.nodes nodeId

/-! ### init_domain / update_node -/

/-- The `for node in graph["nodes"]` loop of `init_domain` (lines 67-75):
add a zero record for every graph node not yet tracked. -/
def addMissingNodes (nodes : Dict MasteryRecord) (graphNodes : List GraphNode) :
    Dict MasteryRecord :=
  graphNodes.foldl
    (fun d n => if dictContains d n.id then d else dictSet d n.id zeroRecord) nodes

/-- `init_domain` (lines 58-78): load the graph (may fail), create the
domain's entry if absent, add zero records for missing graph nodes,
leave the already-tracked records untouched. -/
def init_domain (graphs : Graphs) (state : KState) (domain : String) :
    Except String KState := do
  let graph ← load_graph graphs domain
  let doms := if dictContains state.domains domain then state.domains
              else dictSet state.domains domain ⟨[]⟩
  let ds := (dictGet doms domain).getD ⟨[]⟩
  pure ⟨dictSet doms domain ⟨addMissingNodes ds.nodes graph.nodes⟩⟩

/-- `MASTERY_THRESHOLDS` + `_compute_status` (lines 21-26 and 151-160). -/
def compute_status (mastery : ℚ) : String :=
  if mastery ≥ 85/100 then "mastered"
  else if mastery ≥ 70/100 then "strong"
  else if mastery ≥ 40/100 then "developing"
  else "weak"

/-- `score_to_mastery = {0: 0.0, 1: 0.3, 2: 0.7, 3: 1.0}` with
`.get(score, 0.0)` (lines 133-134). -/
def score_to_mastery (score : ℤ) : ℚ :=
  if score = 0 then 0
  else if score = 1 then 3/10
  else if score = 2 then 7/10
  else if score = 3 then 1
  else 0

/-- `update_node` (lines 110-148).  `now` is the current time in epoch
seconds.  Returns the new state together with the updated record (the
source returns the mutated node dict). -/
def update_node (graphs : Graphs) (state : KState) (domain nodeId : String)
    (score : ℤ) (now : ℤ) : Except String (KState × MasteryRecord) := do
  let state ← if dictContains state.domains domain then pure state
              else init_domain graphs state domain
  -- after the branch above the domain is always present
  let ds := (dictGet state.domains domain).getD ⟨[]⟩
  let nodes := if dictContains ds.nodes nodeId then ds.nodes
               else dictSet ds.nodes nodeId zeroRecord
  let node := (dictGet nodes nodeId).getD zeroRecord
  let new_observation := score_to_mastery score
  let m := EMA_ALPHA * new_observation + (1 - EMA_ALPHA) * node.mastery
  let m := pymax 0 (pymin 1 m)
  let node' : MasteryRecord :=
    { mastery := m
      attempts := node.attempts + 1
      last_seen := some now
      status := compute_status m }
  pure (⟨dictSet state.domains domain ⟨dictSet nodes nodeId node'⟩⟩, node')

/-! ### apply_decay -/

/-- `(now - last_seen).days`: Python `timedelta.days` is the floor of the
difference in whole days. -/
def days_since (now t : ℤ) : ℤ := (now - t).fdiv 86400

/-- The per-record body of the `apply_decay` loop (lines 172-187). -/
def decayRecord (now : ℤ) (r : MasteryRecord) : MasteryRecord :=
  match r.last_seen with
  | none => r
  | some t =>
    if days_since now t > DECAY_GRACE_DAYS then
      let decay_amount := ((days_since now t - DECAY_GRACE_DAYS : ℤ) : ℚ) * DECAY_RATE_PER_DAY
      let m := pymax 0 (r.mastery - decay_amount)
      { r with mastery := m, status := compute_status m }
    else r

/-- `apply_decay` (lines 163-192): decay every record of every domain. -/
def apply_decay (now : ℤ) (state : KState) : KState :=
  ⟨dictMapValues (fun ds => ⟨dictMapValues (decayRecord now) ds.nodes⟩) state.domains⟩

/-! ### get_node_priority / get_weak_nodes -/

/-- The body of `get_node_priority` after the graph is loaded
(lines 95-107). -/
def node_priority_pure (graph : Graph) (state : KState) (domain nodeId : String) : ℚ :=
  match graph.nodes.find? (fun n => n.id = nodeId) with
  | none => 0
  | some node_info =>
    match dictGet state.domains domain with
    | none => node_info.reuse_weight
    | some ds =>
      match dictGet ds.nodes nodeId with
      | none => node_info.reuse_weight
      | some node_state => node_info.reuse_weight * (1 - node_state.mastery)

/-- `get_node_priority` (lines 89-107): `reuse_weight * (1 - mastery)`,
full weight when the domain or the record is missing. -/
def get_node_priority (graphs : Graphs) (state : KState) (domain nodeId : String) :
    Except String ℚ := do
  let graph ← load_graph graphs domain
  pure (node_priority_pure graph state domain nodeId)

/-- The tuples `(node_id, priority, node_info, node_state)` built by
`get_weak_nodes` (lines 207-217), in graph declaration order. -/
def weakNodeEntries (graph : Graph) (state : KState) (domain : String) :
    List (String × ℚ × GraphNode × MasteryRecord) :=
  graph.nodes.map (fun node =>
    (node.id, node_priority_pure graph state domain node.id, node,
      (match dictGet state.domains domain with
       | none => none
       | some ds => dictGet ds.nodes node.id).getD zeroRecord))

/-- `get_weak_nodes` (lines 195-221): materialize every graph node with its
priority and (possibly zero-state) record, stable-sort by priority
descending (`results.sort(key=lambda x: -x[1])` — Python's sort is stable),
and keep the first `top_n`. -/
def get_weak_nodes (graphs : Graphs) (state : KState) (domain : String) (top_n : ℕ) :
    Except String (List (String × ℚ × GraphNode × MasteryRecord)) := do
  let graph ← load_graph graphs domain
  let state ← if dictContains state.domains domain then pure state
              else init_domain graphs state domain
  let results := weakNodeEntries graph state domain
  pure ((results.mergeSort (fun a b => decide (b.2.1 ≤ a.2.1))).take top_n)

/-! ### Analyzer (analyzer.py)

The analyzer's per-message regex matching is abstracted: a user turn carries
the number of `QUESTION_MARKERS` and `CONFIDENCE_MARKERS` patterns its text
matches (the inputs of the decision logic at analyzer.py lines 221-226) and
the per-domain concept lists `detect_concepts_in_text` returns for the user
text and for the immediately following assistant text (empty when there is
no assistant reply).  `detect_concepts_in_text` appends each graph node at
most once, so these lists are duplicate-free in every real run.  The nested
session/message loop of `analyze_sessions` (lines 247-291) processes, in
order, exactly one such event per user turn, for each domain independently;
the model below follows one domain's accumulator through that event
sequence. -/

/-- The three intent labels returned by `classify_message_intent`. -/
inductive Intent where
  | question
  | assertion
  | neutral
  deriving DecidableEq, Repr

/-- Decision logic of `classify_message_intent` (lines 221-226), as a
function of the two pattern-match counts. -/
def classify_message_intent (question_count confidence_count : ℕ) : Intent :=
  if question_count > confidence_count then .question
  else if confidence_count > 0 then .assertion
  else .neutral

/-- One user turn together with its following assistant turn (if any),
restricted to one domain: the two match counts of the user text and the
concepts detected in each text. -/
structure UserTurn where
  question_count : ℕ
  confidence_count : ℕ
  userConcepts : List String
  claudeConcepts : List String
  deriving DecidableEq, Repr

/-- One per-concept accumulator entry: `{"score": ..., "signals": [...]}`. -/
structure Entry where
  score : ℚ
  signals : List String
  deriving DecidableEq, Repr

/-- `results[domain][concept]["score"] += delta` plus
`...["signals"].append(tag)`, creating the `{"score": 0.0, "signals": []}`
entry when absent (lines 272-291). -/
def addSignal (acc : Dict Entry) (concept : String) (delta : ℚ) (tag : String) :
    Dict Entry :=
  let e := (dictGet acc concept).getD { score := 0, signals := [] }
  dictSet acc concept { score := e.score + delta, signals := e.signals ++ [tag] }

/-- Score delta applied to a concept detected in the user text, by intent
(lines 276-284). -/
def intentDelta : Intent → ℚ
  | .question => -(15/100)
  | .assertion => 20/100
  | .neutral => 5/100

/-- Signal tag recorded for a concept detected in the user text, by intent
(lines 276-284). -/
def intentTag : Intent → String
  | .question => "question"
  | .assertion => "assertion"
  | .neutral => "neutral_user"

/-- Body of the per-user-turn loop of `analyze_sessions` (lines 251-291)
for one domain: classify the turn, score the user-mentioned concepts by
intent, then give `+0.05` / `"claude_explained"` to concepts detected only
in the assistant reply. -/
def processTurn (acc : Dict Entry) (t : UserTurn) : Dict Entry :=
  let intent := classify_message_intent t.question_count t.confidence_count
  let claude_only := t.claudeConcepts.filter (fun c => !t.userConcepts.contains c)
  let acc := t.userConcepts.foldl
    (fun a c => addSignal a c (intentDelta intent) (intentTag intent)) acc
  claude_only.foldl (fun a c => addSignal a c (5/100) "claude_explained") acc

/-- Final clamp of `analyze_sessions` (lines 293-297): every accumulated
score is clamped to `[0.0, 0.8]`. -/
def clampScores (acc : Dict Entry) : Dict Entry :=
  dictMapValues (fun e => { e with score := pymax 0 (pymin (8/10) e.score) }) acc

/-- `analyze_sessions` for one domain: fold the per-turn scoring over the
turn sequence (all sessions, in order), then clamp. -/
def analyze_sessions (turns : List UserTurn) : Dict Entry :=
  clampScores (turns.foldl processTurn [])

/-! ### apply_analysis_to_state (analyzer.py lines 302-347)

The source loads the state once, then mutates it in memory, but when it
meets a domain missing from the state it calls `init_domain` (which loads
and saves the state on disk on its own) and then replaces its in-memory
state with a fresh `load_state()` — discarding every in-memory change made
for the domains already processed.  The model therefore threads a pair
`(disk, mem)`: `disk` is what `load_state()` would read, `mem` the mutated
in-memory document; the final `save_state(state)` makes `mem` the result. -/

/-- Status thresholds used by the merge (lines 339-344) — note: a three-band
variant of `compute_status` with no `"mastered"` case. -/
def merge_status (score : ℚ) : String :=
  if score ≥ 70/100 then "strong"
  else if score ≥ 40/100 then "developing"
  else "weak"

/-- The inner `for node_id, data in concepts.items()` loop (lines 324-344):
skip node ids absent from the state, skip entries with no signals, and for
the rest overwrite the record with the accumulated score, the signal count,
`now`, and the recomputed status. -/
def applyAnalysisNodes (nodes : Dict MasteryRecord) (concepts : Dict Entry)
    (now : ℤ) : Dict MasteryRecord :=
  concepts.foldl
    (fun ns kv =>
      match dictGet ns kv.1 with
      | none => ns
      | some _ =>
        if kv.2.signals.length > 0 then
          dictSet ns kv.1
            { mastery := kv.2.score
              attempts := kv.2.signals.length
              last_seen := some now
              status := merge_status kv.2.score }
        else ns)
    nodes

/-- Rewrite one domain's node table inside the in-memory state. -/
def processAnalysisDomain (mem : KState) (domain : String) (concepts : Dict Entry)
    (now : ℤ) : KState :=
  match dictGet mem.domains domain with
  | none => mem  -- unreachable: only called with the domain present
  | some ds => ⟨dictSet mem.domains domain ⟨applyAnalysisNodes ds.nodes concepts now⟩⟩

/-- One iteration of the `for domain, concepts in analysis.items()` loop
(lines 312-344) over the `(disk, mem)` pair. -/
def applyAnalysisStep (graphs : Graphs) (now : ℤ) (s : KState × KState)
    (entry : String × Dict Entry) : KState × KState :=
  let (disk, mem) := s
  let (domain, concepts) := entry
  if concepts.isEmpty then (disk, mem)
  else if dictContains mem.domains domain then
    (disk, processAnalysisDomain mem domain concepts now)
  else
    match init_domain graphs disk domain with
    | .error _ => (disk, mem)        -- FileNotFoundError: skip the domain
    | .ok disk' => (disk', processAnalysisDomain disk' domain concepts now)

/-- `apply_analysis_to_state` (lines 302-347): returns the state the final
`save_state` persists. -/
def apply_analysis_to_state (graphs : Graphs) (state : KState)
    (analysis : Dict (Dict Entry)) (now : ℤ) : KState :=
  (analysis.foldl (applyAnalysisStep graphs now) (state, state)).2

/-! ### Statement helpers and shared concrete instances -/

/-- Net score delta one turn contributes to one concept: the per-intent
delta when the concept is detected in the user text, `+0.05` when it is
detected only in the assistant text, `0` otherwise. -/
def turnDelta (t : UserTurn) (c : String) : ℚ :=
  if c ∈ t.userConcepts then
    intentDelta (classify_message_intent t.question_count t.confidence_count)
  else if c ∈ t.claudeConcepts then 5/100
  else 0

/-- Signal tag one turn records for one concept (`none` when the turn does
not mention it). -/
def turnTag (t : UserTurn) (c : String) : Option String :=
  if c ∈ t.userConcepts then
    some (intentTag (classify_message_intent t.question_count t.confidence_count))
  else if c ∈ t.claudeConcepts then some "claude_explained"
  else none

/-- The state `get_weak_nodes` ranks over, after its conditional
`init_domain` (lines 203-205). -/
def weak_state (graphs : Graphs) (state : KState) (domain : String) : KState :=
  if dictContains state.domains domain then state
  else (init_domain graphs state domain).toOption.getD state

/-- A small two-domain graph store used by concrete instances. -/
def exampleGraphs : Graphs := fun d =>
  if d = "alpha" then some ⟨[⟨"a1", "A1", 1/2⟩]⟩
  else if d = "beta" then some ⟨[⟨"b1", "B1", 1/2⟩]⟩
  else none

/-- A state that tracks domain `"alpha"` only, with its node at the zero
record. -/
def exampleState : KState := ⟨[("alpha", ⟨[("a1", zeroRecord)]⟩)]⟩

/-- A record with mastery `0.5` last seen at epoch second `0`. -/
def exampleDecayState : KState :=
  ⟨[("d", ⟨[("n", ⟨1/2, 1, some 0, "developing"⟩)]⟩)]⟩

/-! ## Basic dictionary lemmas -/

theorem dictGet_dictSet {β : Type} (d : Dict β) (k q : String) (v : β) :
    dictGet (dictSet d k v) q = if k = q then some v else dictGet d q := by
  induction d with
  | nil => simp [dictSet, dictGet]
  | cons p rest ih =>
    obtain ⟨k', v'⟩ := p
    by_cases hk : k' = k <;> by_cases hq : k = q <;>
      simp_all [dictSet, dictGet]

theorem dictGet_dictSet_self {β : Type} (d : Dict β) (k : String) (v : β) :
    dictGet (dictSet d k v) k = some v := by
  rw [dictGet_dictSet, if_pos rfl]

theorem dictGet_dictSet_ne {β : Type} (d : Dict β) (k q : String) (v : β)
    (h : k ≠ q) : dictGet (dictSet d k v) q = dictGet d q := by
  rw [dictGet_dictSet, if_neg h]

theorem dictGet_mapValues {β γ : Type} (f : β → γ) (d : Dict β) (k : String) :
    dictGet (dictMapValues f d) k = (dictGet d k).map f := by
  induction d with
  | nil => simp [dictMapValues, dictGet]
  | cons p rest ih =>
    obtain ⟨k', v⟩ := p
    by_cases h : k' = k <;> simp_all [dictMapValues, dictGet]

theorem pymax_eq_max (a b : ℚ) : pymax a b = max a b := by
  unfold pymax
  rcases lt_or_le a b with h | h
  · rw [if_pos h, max_eq_right h.le]
  · rw [if_neg (not_lt.mpr h), max_eq_left h]

theorem pymin_eq_min (a b : ℚ) : pymin a b = min a b := by
  unfold pymin
  rcases lt_or_le b a with h | h
  · rw [if_pos h, min_eq_right h.le]
  · rw [if_neg (not_lt.mpr h), min_eq_left h]

/-! ## Decay lemmas -/

theorem lookupRecord_apply_decay (now : ℤ) (state : KState) (dm nid : String) :
    lookupRecord (apply_decay now state) dm nid =
      (lookupRecord state dm nid).map (decayRecord now) := by
  unfold lookupRecord apply_decay
  rw [dictGet_mapValues]
  cases h : dictGet state.domains dm <;> simp [dictGet_mapValues]

theorem decayRecord_of_none (now : ℤ) (r : MasteryRecord)
    (h : r.last_seen = none) : decayRecord now r = r := by
  simp [decayRecord, h]

theorem decayRecord_of_fresh (now : ℤ) (r : MasteryRecord) (t : ℤ)
    (h : r.last_seen = some t) (hd : days_since now t ≤ DECAY_GRACE_DAYS) :
    decayRecord now r = r := by
  simp [decayRecord, h, not_lt.mpr hd]

theorem decayRecord_of_stale (now : ℤ) (r : MasteryRecord) (t : ℤ)
    (h : r.last_seen = some t) (hd : DECAY_GRACE_DAYS < days_since now t) :
    decayRecord now r =
      { r with
        mastery := pymax 0 (r.mastery -
          ((days_since now t - DECAY_GRACE_DAYS : ℤ) : ℚ) * DECAY_RATE_PER_DAY)
        status := compute_status (pymax 0 (r.mastery -
          ((days_since now t - DECAY_GRACE_DAYS : ℤ) : ℚ) * DECAY_RATE_PER_DAY)) } := by
  simp [decayRecord, h, hd]

theorem decayRecord_attempts (now : ℤ) (r : MasteryRecord) :
    (decayRecord now r).attempts = r.attempts := by
  cases h : r.last_seen with
  | none => rw [decayRecord_of_none now r h]
  | some t =>
    rcases le_or_lt (days_since now t) DECAY_GRACE_DAYS with hd | hd
    · rw [decayRecord_of_fresh now r t h hd]
    · rw [decayRecord_of_stale now r t h hd]

theorem decayRecord_last_seen (now : ℤ) (r : MasteryRecord) :
    (decayRecord now r).last_seen = r.last_seen := by
  cases h : r.last_seen with
  | none => rw [decayRecord_of_none now r h, h]
  | some t =>
    rcases le_or_lt (days_since now t) DECAY_GRACE_DAYS with hd | hd
    · rw [decayRecord_of_fresh now r t h hd, h]
    · rw [decayRecord_of_stale now r t h hd, h]

/-! ## C3 — decay semantics -/

/-- C3: for every record with non-null `last_seen` and whole elapsed days
`d`, `apply_decay` reduces mastery by `(d - 3) * 0.02` floored at `0` and
recomputes status when `d > 3`, leaves it unchanged when `d ≤ 3`, and never
decays records with `last_seen = null`. -/
theorem claim_C3 (now : ℤ) (state : KState) (dm nid : String) (r : MasteryRecord)
    (h : lookupRecord state dm nid = some r) :
    lookupRecord (apply_decay now state) dm nid = some (decayRecord now r)
    ∧ (r.last_seen = none → decayRecord now r = r)
    ∧ (∀ t d, r.last_seen = some t → days_since now t = d →
        (d ≤ 3 → decayRecord now r = r)
        ∧ (3 < d →
            (decayRecord now r).mastery = max 0 (r.mastery - ((d - 3 : ℤ) : ℚ) * (2/100))
            ∧ (decayRecord now r).status = compute_status ((decayRecord now r).mastery)
            ∧ (decayRecord now r).attempts = r.attempts
            ∧ (decayRecord now r).last_seen = r.last_seen)) := by
  refine ⟨?_, fun hn => decayRecord_of_none now r hn, ?_⟩
  · rw [lookupRecord_apply_decay, h, Option.map_some']
  · intro t d ht hd
    subst hd
    constructor
    · intro hle
      exact decayRecord_of_fresh now r t ht hle
    · intro hgt
      have hstale := decayRecord_of_stale now r t ht hgt
      rw [hstale]
      refine ⟨?_, rfl, rfl, by rw [ht]⟩
      simp only [DECAY_GRACE_DAYS, DECAY_RATE_PER_DAY, pymax_eq_max]

/-- Witness for C3 at `d = 10`: mastery `0.5` decays to
`max 0 (0.5 - 7 * 0.02)`. -/
theorem claim_C3_witness :
    lookupRecord (apply_decay 864000 exampleDecayState) "d" "n" =
      some (decayRecord 864000 ⟨1/2, 1, some 0, "developing"⟩)
    ∧ (decayRecord 864000 (⟨1/2, 1, some 0, "developing"⟩ : MasteryRecord)).mastery
        = max 0 ((1:ℚ)/2 - ((10 - 3 : ℤ) : ℚ) * (2/100)) := by
  have H := claim_C3 864000 exampleDecayState "d" "n" ⟨1/2, 1, some 0, "developing"⟩
    (by decide)
  exact ⟨H.1, ((H.2.2 0 10 rfl (by decide)).2 (by norm_num)).1⟩

/-! ## C4 — decay is *not* idempotent (corrected) -/

/-- C4 counterexample: with mastery `0.5` last seen 10 days ago, a second
immediate `apply_decay` changes the state again (`0.5 → 0.36 → 0.22`). -/
theorem claim_C4_counterexample :
    apply_decay 864000 (apply_decay 864000 exampleDecayState) ≠
      apply_decay 864000 exampleDecayState := by decide

/-- C4 (amended): decay never modifies `last_seen` or `attempts`, but it is
not idempotent: an immediate second `apply_decay` subtracts each stale
record's decay amount a second time (floored at `0`), reaching
`max 0 (m - 2*(d-3)*0.02)`; the second application changes a stale record
only when its once-decayed mastery has not already hit the `0` floor. -/
theorem claim_C4 (now : ℤ) (state : KState) (dm nid : String) (r : MasteryRecord)
    (h : lookupRecord state dm nid = some r) :
    lookupRecord (apply_decay now (apply_decay now state)) dm nid
      = some (decayRecord now (decayRecord now r))
    ∧ (decayRecord now r).attempts = r.attempts
    ∧ (decayRecord now r).last_seen = r.last_seen
    ∧ (∀ t, r.last_seen = some t → 3 < days_since now t →
        (decayRecord now (decayRecord now r)).mastery
          = max 0 (r.mastery - 2 * ((days_since now t - 3 : ℤ) : ℚ) * (2/100))
        ∧ (decayRecord now (decayRecord now r) = decayRecord now r ↔
            (decayRecord now r).mastery = 0)) := by
  refine ⟨?_, decayRecord_attempts now r, decayRecord_last_seen now r, ?_⟩
  · rw [lookupRecord_apply_decay, lookupRecord_apply_decay, h]
    rfl
  · intro t ht hgt
    have hgt' : DECAY_GRACE_DAYS < days_since now t := hgt
    set a : ℚ := ((days_since now t - DECAY_GRACE_DAYS : ℤ) : ℚ) * DECAY_RATE_PER_DAY with ha
    have hapos : 0 < a := by
      have h1 : (1 : ℤ) ≤ days_since now t - DECAY_GRACE_DAYS := by
        simp only [DECAY_GRACE_DAYS] at hgt' ⊢
        omega
      have h2 : (1 : ℚ) ≤ ((days_since now t - DECAY_GRACE_DAYS : ℤ) : ℚ) := by
        exact_mod_cast h1
      rw [ha]
      simp only [DECAY_RATE_PER_DAY]
      nlinarith
    have hr1 := decayRecord_of_stale now r t ht hgt'
    have hr1seen : (decayRecord now r).last_seen = some t := by
      rw [decayRecord_last_seen, ht]
    have hr2 := decayRecord_of_stale now (decayRecord now r) t hr1seen hgt'
    have hm1 : (decayRecord now r).mastery = max 0 (r.mastery - a) := by
      rw [hr1, pymax_eq_max]
    have hs1 : (decayRecord now r).status = compute_status ((decayRecord now r).mastery) := by
      rw [hr1]
    have hm2 : (decayRecord now (decayRecord now r)).mastery
        = max 0 ((decayRecord now r).mastery - a) := by
      rw [hr2, pymax_eq_max]
    constructor
    · rw [hm2, hm1]
      have h23 : ((days_since now t - 3 : ℤ) : ℚ) * (2/100) = a := by
        rw [ha]
        simp only [DECAY_GRACE_DAYS, DECAY_RATE_PER_DAY]
      have h24 : r.mastery - 2 * ((days_since now t - 3 : ℤ) : ℚ) * (2/100)
          = r.mastery - 2 * a := by
        rw [mul_assoc, h23]
      rw [h24]
      rcases le_or_lt r.mastery a with hma | hma
      · have e1 : (0:ℚ) ⊔ (r.mastery - a) = 0 := max_eq_left (by linarith)
        rw [e1]
        have e2 : (0:ℚ) ⊔ (0 - a) = 0 := max_eq_left (by linarith)
        have e3 : (0:ℚ) ⊔ (r.mastery - 2 * a) = 0 := max_eq_left (by linarith)
        rw [e2, e3]
      · have e1 : (0:ℚ) ⊔ (r.mastery - a) = r.mastery - a := max_eq_right (by linarith)
        rw [e1]
        have e4 : r.mastery - a - a = r.mastery - 2 * a := by ring
        rw [e4]
    · constructor
      · intro heq
        have hmeq : (decayRecord now (decayRecord now r)).mastery
            = (decayRecord now r).mastery := by rw [heq]
        rw [hm2] at hmeq
        have hge : 0 ≤ (decayRecord now r).mastery := by
          rw [hm1]; exact le_max_left 0 _
        rcases le_or_lt ((decayRecord now r).mastery) a with hle | hlt
        · rw [max_eq_left (by linarith)] at hmeq
          linarith
        · rw [max_eq_right (by linarith)] at hmeq
          linarith
      · intro h0
        rw [hr2]
        have hz : pymax 0 ((decayRecord now r).mastery - a) = (decayRecord now r).mastery := by
          rw [pymax_eq_max, h0, zero_sub, max_eq_left (by linarith)]
        rw [hz]
        have hcs : compute_status ((decayRecord now r).mastery) = (decayRecord now r).status :=
          hs1.symm
        rw [hcs]

/-- Witness for the amended C4 at mastery `0.5`, `d = 10`. -/
theorem claim_C4_witness :
    lookupRecord (apply_decay 864000 (apply_decay 864000 exampleDecayState)) "d" "n"
      = some (decayRecord 864000 (decayRecord 864000 ⟨1/2, 1, some 0, "developing"⟩))
    ∧ (decayRecord 864000 (decayRecord 864000 (⟨1/2, 1, some 0, "developing"⟩ : MasteryRecord))).mastery
      = max 0 ((1:ℚ)/2 - 2 * ((10 - 3 : ℤ) : ℚ) * (2/100)) := by
  have H := claim_C4 864000 exampleDecayState "d" "n" ⟨1/2, 1, some 0, "developing"⟩
    (by decide)
  exact ⟨H.1, (H.2.2.2 0 rfl (by decide)).1⟩

/-! ## update_node lemmas -/

theorem init_domain_eq (graphs : Graphs) (state : KState) (dm : String) (g : Graph)
    (h : graphs dm = some g) :
    init_domain graphs state dm = .ok
      ⟨dictSet
        (if dictContains state.domains dm then state.domains
         else dictSet state.domains dm ⟨[]⟩) dm
        ⟨addMissingNodes
          ((dictGet
            (if dictContains state.domains dm then state.domains
             else dictSet state.domains dm ⟨[]⟩) dm).getD ⟨[]⟩).nodes g.nodes⟩⟩ := by
  simp [init_domain, load_graph, h, Bind.bind, Except.bind, pure, Except.pure]

theorem update_node_of_present (graphs : Graphs) (state : KState) (dm nid : String)
    (score now : ℤ) (ds : DomainState) (node : MasteryRecord)
    (h1 : dictGet state.domains dm = some ds) (h2 : dictGet ds.nodes nid = some node) :
    update_node graphs state dm nid score now = .ok
      (⟨dictSet state.domains dm ⟨dictSet ds.nodes nid
        { mastery := pymax 0 (pymin 1
            (EMA_ALPHA * score_to_mastery score + (1 - EMA_ALPHA) * node.mastery))
          attempts := node.attempts + 1
          last_seen := some now
          status := compute_status (pymax 0 (pymin 1
            (EMA_ALPHA * score_to_mastery score + (1 - EMA_ALPHA) * node.mastery))) }⟩⟩,
       { mastery := pymax 0 (pymin 1
           (EMA_ALPHA * score_to_mastery score + (1 - EMA_ALPHA) * node.mastery))
         attempts := node.attempts + 1
         last_seen := some now
         status := compute_status (pymax 0 (pymin 1
           (EMA_ALPHA * score_to_mastery score + (1 - EMA_ALPHA) * node.mastery))) }) := by
  have hc : dictContains state.domains dm = true := by
    simp [dictContains, h1]
  have hc2 : dictContains ds.nodes nid = true := by
    simp [dictContains, h2]
  simp [update_node, hc, hc2, h1, h2, pure, Except.pure, Bind.bind, Except.bind]

theorem update_node_ok (graphs : Graphs) (state : KState) (dm nid : String)
    (score now : ℤ) (st' : KState) (rec : MasteryRecord)
    (h : update_node graphs state dm nid score now = .ok (st', rec)) :
    rec.status = compute_status rec.mastery ∧ lookupRecord st' dm nid = some rec := by
  unfold update_node at h
  by_cases hc : dictContains state.domains dm = true
  · simp only [hc, if_true, Bind.bind, Except.bind, pure, Except.pure,
      Except.ok.injEq, Prod.mk.injEq] at h
    obtain ⟨hst, hrec⟩ := h
    subst hst
    subst hrec
    refine ⟨rfl, ?_⟩
    unfold lookupRecord
    simp [dictGet_dictSet_self]
  · rw [if_neg hc] at h
    cases hinit : init_domain graphs state dm with
    | error e =>
      rw [hinit] at h
      simp [Bind.bind, Except.bind] at h
    | ok st₁ =>
      rw [hinit] at h
      simp only [Bind.bind, Except.bind, pure, Except.pure, Except.ok.injEq,
        Prod.mk.injEq] at h
      obtain ⟨hst, hrec⟩ := h
      subst hst
      subst hrec
      refine ⟨rfl, ?_⟩
      unfold lookupRecord
      simp [dictGet_dictSet_self]

theorem update_node_isOk (graphs : Graphs) (g : Graph) (state : KState)
    (dm nid : String) (score now : ℤ) (h : graphs dm = some g) :
    ∃ p, update_node graphs state dm nid score now = .ok p := by
  unfold update_node
  by_cases hc : dictContains state.domains dm = true
  · rw [if_pos hc]
    exact ⟨_, rfl⟩
  · rw [if_neg hc, init_domain_eq graphs state dm g h]
    exact ⟨_, rfl⟩

/-! ## C1 — EMA update formula -/

/-- C1: for every score `s ∈ {0,1,2,3}` and prior mastery `m ∈ [0,1]`,
`update_node` sets the node's new mastery to
`clamp(0.3*obs(s) + 0.7*m, 0, 1)` with `obs = {0: 0, 1: 0.3, 2: 0.7, 3: 1}`. -/
theorem claim_C1 (graphs : Graphs) (state : KState) (dm nid : String)
    (ds : DomainState) (node : MasteryRecord) (score now : ℤ) (m : ℚ)
    (h1 : dictGet state.domains dm = some ds)
    (h2 : dictGet ds.nodes nid = some node)
    (hm : node.mastery = m) (hm0 : 0 ≤ m) (hm1 : m ≤ 1)
    (hs : score = 0 ∨ score = 1 ∨ score = 2 ∨ score = 3) :
    ∃ st' rec, update_node graphs state dm nid score now = .ok (st', rec)
      ∧ lookupRecord st' dm nid = some rec
      ∧ rec.mastery = max 0 (min 1 ((3/10) * score_to_mastery score + (7/10) * m))
      ∧ score_to_mastery 0 = 0 ∧ score_to_mastery 1 = 3/10
      ∧ score_to_mastery 2 = 7/10 ∧ score_to_mastery 3 = 1 := by
  have H := update_node_of_present graphs state dm nid score now ds node h1 h2
  refine ⟨_, _, H, ?_, ?_, by norm_num [score_to_mastery], by norm_num [score_to_mastery],
    by norm_num [score_to_mastery], by norm_num [score_to_mastery]⟩
  · unfold lookupRecord
    simp [dictGet_dictSet_self]
  · show pymax 0 (pymin 1 (EMA_ALPHA * score_to_mastery score + (1 - EMA_ALPHA) * node.mastery))
      = max 0 (min 1 ((3/10) * score_to_mastery score + (7/10) * m))
    rw [pymax_eq_max, pymin_eq_min, hm]
    norm_num [EMA_ALPHA]

/-- Witness for C1: prior mastery `0` and score `2` yield mastery `0.21`. -/
theorem claim_C1_witness :
    ∃ st' rec, update_node exampleGraphs exampleState "alpha" "a1" 2 77 = .ok (st', rec)
      ∧ rec.mastery = 21/100 := by
  obtain ⟨st', rec, hok, hlook, hmast, _⟩ :=
    claim_C1 exampleGraphs exampleState "alpha" "a1" ⟨[("a1", zeroRecord)]⟩ zeroRecord
      2 77 0 (by decide) (by decide) rfl le_rfl (by norm_num) (by norm_num)
  refine ⟨st', rec, hok, ?_⟩
  rw [hmast]
  norm_num [score_to_mastery]

/-! ## C10 — update never fails -/

/-- C10: for every domain that has a concept graph and every node id (even
one absent from the state and the graph), `update_node` succeeds, lazily
materializing the domain and a fresh zero-state record, and the updated
record is stored. -/
theorem claim_C10 (graphs : Graphs) (g : Graph) (state : KState)
    (dm nid : String) (score now : ℤ) (h : graphs dm = some g) :
    ∃ st' rec, update_node graphs state dm nid score now = .ok (st', rec)
      ∧ lookupRecord st' dm nid = some rec := by
  obtain ⟨⟨st', rec⟩, hp⟩ := update_node_isOk graphs g state dm nid score now h
  exact ⟨st', rec, hp, (update_node_ok graphs state dm nid score now st' rec hp).2⟩

/-- Witness for C10: a first-ever update on a completely empty state, for a
node id that is not even in the graph, succeeds. -/
theorem claim_C10_witness :
    ∃ st' rec, update_node exampleGraphs ⟨[]⟩ "beta" "unknown-node" 3 5 = .ok (st', rec)
      ∧ lookupRecord st' "beta" "unknown-node" = some rec :=
  claim_C10 exampleGraphs ⟨[⟨"b1", "B1", 1/2⟩]⟩ ⟨[]⟩ "beta" "unknown-node" 3 5 (by decide)

/-! ## Merge lemmas (apply_analysis_to_state) -/

theorem lookupRecord_def (st : KState) (dm nid : String) :
    lookupRecord st dm nid =
      Option.bind (dictGet st.domains dm) (fun ds => dictGet ds.nodes nid) := by
  unfold lookupRecord
  cases dictGet st.domains dm <;> rfl

theorem merge_status_eq_compute_status (s : ℚ) (h : s < 85/100) :
    merge_status s = compute_status s := by
  unfold merge_status compute_status
  rw [if_neg (not_le.mpr h)]

theorem zeroRecord_status : zeroRecord.status = compute_status zeroRecord.mastery := by
  decide

theorem addMissingNodes_lookup : ∀ (gs : List GraphNode) (d : Dict MasteryRecord)
    (nid : String) (r : MasteryRecord),
    dictGet (addMissingNodes d gs) nid = some r →
    dictGet d nid = some r ∨ r = zeroRecord := by
  intro gs
  induction gs with
  | nil => intro d nid r h; exact Or.inl h
  | cons n rest ih =>
    intro d nid r h
    have h' : dictGet (addMissingNodes
        (if dictContains d n.id then d else dictSet d n.id zeroRecord) rest) nid = some r := h
    rcases ih _ nid r h' with h2 | h2
    · by_cases hc : dictContains d n.id = true
      · rw [if_pos hc] at h2
        exact Or.inl h2
      · rw [if_neg hc, dictGet_dictSet] at h2
        by_cases he : n.id = nid
        · rw [if_pos he] at h2
          exact Or.inr (Option.some.inj h2).symm
        · rw [if_neg he] at h2
          exact Or.inl h2
    · exact Or.inr h2

theorem init_domain_lookup (graphs : Graphs) (st : KState) (dm' : String) (st' : KState)
    (hok : init_domain graphs st dm' = .ok st') (dm nid : String) (r : MasteryRecord)
    (h : lookupRecord st' dm nid = some r) :
    lookupRecord st dm nid = some r ∨ r = zeroRecord := by
  cases hg : graphs dm' with
  | none =>
    rw [init_domain] at hok
    simp [load_graph, hg, Bind.bind, Except.bind] at hok
  | some g =>
    rw [init_domain_eq graphs st dm' g hg] at hok
    injection hok with hok
    subst hok
    rw [lookupRecord_def] at h
    simp only [dictGet_dictSet] at h
    by_cases hdm : dm' = dm
    · rw [if_pos hdm, Option.some_bind] at h
      rcases addMissingNodes_lookup g.nodes _ nid r h with h2 | h2
      · by_cases hc : dictContains st.domains dm' = true
        · rw [if_pos hc] at h2
          obtain ⟨ds, hds⟩ := Option.isSome_iff_exists.mp hc
          rw [hds] at h2
          rw [lookupRecord_def, ← hdm, hds, Option.some_bind]
          exact Or.inl h2
        · rw [if_neg hc, dictGet_dictSet_self] at h2
          simp [dictGet] at h2
      · exact Or.inr h2
    · rw [if_neg hdm] at h
      rw [lookupRecord_def]
      by_cases hc : dictContains st.domains dm' = true
      · rw [if_pos hc] at h
        exact Or.inl h
      · rw [if_neg hc, dictGet_dictSet_ne _ _ _ _ hdm] at h
        exact Or.inl h

theorem applyAnalysisNodes_lookup : ∀ (concepts : Dict Entry)
    (nodes : Dict MasteryRecord) (now : ℤ),
    (∀ p ∈ concepts, (p.2 : Entry).score < 85/100) →
    ∀ (nid : String) (r : MasteryRecord),
    dictGet (applyAnalysisNodes nodes concepts now) nid = some r →
    dictGet nodes nid = some r ∨ r.status = compute_status r.mastery := by
  intro concepts
  induction concepts with
  | nil => intro nodes now hs nid r h; exact Or.inl h
  | cons p rest ih =>
    intro nodes now hs nid r h
    obtain ⟨c, e⟩ := p
    rcases hget : dictGet nodes c with _ | rec0
    · -- node id absent from the state: skipped
      have h' : dictGet (applyAnalysisNodes nodes rest now) nid = some r := by
        have hstep : applyAnalysisNodes nodes ((c, e) :: rest) now
            = applyAnalysisNodes nodes rest now := by
          simp only [applyAnalysisNodes, List.foldl, hget]
        rw [← hstep]
        exact h
      exact ih nodes now (fun q hq => hs q (List.mem_cons_of_mem _ hq)) nid r h'
    · by_cases hsig : e.signals.length > 0
      · have hstep : applyAnalysisNodes nodes ((c, e) :: rest) now
            = applyAnalysisNodes (dictSet nodes c
                { mastery := e.score
                  attempts := e.signals.length
                  last_seen := some now
                  status := merge_status e.score }) rest now := by
          simp only [applyAnalysisNodes, List.foldl, hget, if_pos hsig]
        rw [hstep] at h
        rcases ih _ now (fun q hq => hs q (List.mem_cons_of_mem _ hq)) nid r h with h2 | h2
        · rw [dictGet_dictSet] at h2
          by_cases he : c = nid
          · rw [if_pos he] at h2
            have hr := (Option.some.inj h2).symm
            have hsc : e.score < 85/100 := hs (c, e) (List.mem_cons_self _ _)
            right
            rw [hr]
            exact merge_status_eq_compute_status e.score hsc
          · rw [if_neg he] at h2
            exact Or.inl h2
        · exact Or.inr h2
      · have hstep : applyAnalysisNodes nodes ((c, e) :: rest) now
            = applyAnalysisNodes nodes rest now := by
          simp only [applyAnalysisNodes, List.foldl, hget, if_neg hsig]
        rw [hstep] at h
        exact ih nodes now (fun q hq => hs q (List.mem_cons_of_mem _ hq)) nid r h

theorem processAnalysisDomain_lookup (mem : KState) (dm' : String) (concepts : Dict Entry)
    (now : ℤ) (hs : ∀ p ∈ concepts, (p.2 : Entry).score < 85/100)
    (dm nid : String) (r : MasteryRecord)
    (h : lookupRecord (processAnalysisDomain mem dm' concepts now) dm nid = some r) :
    lookupRecord mem dm nid = some r ∨ r.status = compute_status r.mastery := by
  unfold processAnalysisDomain at h
  rcases hget : dictGet mem.domains dm' with _ | ds
  · rw [hget] at h
    exact Or.inl h
  · rw [hget] at h
    rw [lookupRecord_def] at h
    simp only [dictGet_dictSet] at h
    by_cases hdm : dm' = dm
    · rw [if_pos hdm, Option.some_bind] at h
      rcases applyAnalysisNodes_lookup concepts ds.nodes now hs nid r h with h2 | h2
      · rw [lookupRecord_def, ← hdm, hget, Option.some_bind]
        exact Or.inl h2
      · exact Or.inr h2
    · rw [if_neg hdm] at h
      rw [lookupRecord_def]
      exact Or.inl h

theorem applyAnalysisStep_lookup (graphs : Graphs) (now : ℤ) (entry : String × Dict Entry)
    (hs : ∀ p ∈ entry.2, (p.2 : Entry).score < 85/100)
    (disk mem : KState) (dm nid : String) (r : MasteryRecord) :
    (lookupRecord (applyAnalysisStep graphs now (disk, mem) entry).1 dm nid = some r →
      lookupRecord disk dm nid = some r ∨ r = zeroRecord)
    ∧ (lookupRecord (applyAnalysisStep graphs now (disk, mem) entry).2 dm nid = some r →
      lookupRecord disk dm nid = some r ∨ lookupRecord mem dm nid = some r
        ∨ r = zeroRecord ∨ r.status = compute_status r.mastery) := by
  obtain ⟨domain, concepts⟩ := entry
  simp only [applyAnalysisStep]
  by_cases hemp : concepts.isEmpty
  · rw [if_pos hemp]
    exact ⟨fun h => Or.inl h, fun h => Or.inr (Or.inl h)⟩
  · rw [if_neg hemp]
    by_cases hc : dictContains mem.domains domain = true
    · rw [if_pos hc]
      refine ⟨fun h => Or.inl h, fun h => ?_⟩
      rcases processAnalysisDomain_lookup mem domain concepts now hs dm nid r h with h2 | h2
      · exact Or.inr (Or.inl h2)
      · exact Or.inr (Or.inr (Or.inr h2))
    · rw [if_neg hc]
      cases hinit : init_domain graphs disk domain with
      | error e =>
        exact ⟨fun h => Or.inl h, fun h => Or.inr (Or.inl h)⟩
      | ok disk' =>
        refine ⟨fun h => ?_, fun h => ?_⟩
        · exact init_domain_lookup graphs disk domain disk' hinit dm nid r h
        · rcases processAnalysisDomain_lookup disk' domain concepts now hs dm nid r h with h2 | h2
          · rcases init_domain_lookup graphs disk domain disk' hinit dm nid r h2 with h3 | h3
            · exact Or.inl h3
            · exact Or.inr (Or.inr (Or.inl h3))
          · exact Or.inr (Or.inr (Or.inr h2))

theorem applyAnalysis_fold_lookup : ∀ (analysis : Dict (Dict Entry)) (graphs : Graphs)
    (now : ℤ) (disk mem : KState),
    (∀ q ∈ analysis, ∀ p ∈ (q.2 : Dict Entry), (p.2 : Entry).score < 85/100) →
    ∀ (dm nid : String) (r : MasteryRecord),
    (lookupRecord (analysis.foldl (applyAnalysisStep graphs now) (disk, mem)).1 dm nid
        = some r →
      lookupRecord disk dm nid = some r ∨ r = zeroRecord)
    ∧ (lookupRecord (analysis.foldl (applyAnalysisStep graphs now) (disk, mem)).2 dm nid
        = some r →
      lookupRecord disk dm nid = some r ∨ lookupRecord mem dm nid = some r
        ∨ r = zeroRecord ∨ r.status = compute_status r.mastery) := by
  intro analysis
  induction analysis with
  | nil => intro graphs now disk mem hs dm nid r; exact ⟨fun h => Or.inl h, fun h => Or.inr (Or.inl h)⟩
  | cons entry rest ih =>
    intro graphs now disk mem hs dm nid r
    rcases hstep : applyAnalysisStep graphs now (disk, mem) entry with ⟨disk', mem'⟩
    have hfold : (entry :: rest).foldl (applyAnalysisStep graphs now) (disk, mem)
        = rest.foldl (applyAnalysisStep graphs now) (disk', mem') := by
      simp only [List.foldl, hstep]
    have hstep1 := (applyAnalysisStep_lookup graphs now entry
      (fun p hp => hs entry (List.mem_cons_self _ _) p hp) disk mem dm nid r)
    rw [hstep] at hstep1
    have ihr := ih graphs now disk' mem'
      (fun q hq p hp => hs q (List.mem_cons_of_mem _ hq) p hp) dm nid r
    rw [hfold]
    constructor
    · intro h
      rcases ihr.1 h with h2 | h2
      · exact hstep1.1 h2
      · exact Or.inr h2
    · intro h
      rcases ihr.2 h with h2 | h2 | h2 | h2
      · rcases hstep1.1 h2 with h3 | h3
        · exact Or.inl h3
        · exact Or.inr (Or.inr (Or.inl h3))
      · exact hstep1.2 h2
      · exact Or.inr (Or.inr (Or.inl h2))
      · exact Or.inr (Or.inr (Or.inr h2))

theorem apply_analysis_lookup (graphs : Graphs) (state : KState)
    (analysis : Dict (Dict Entry)) (now : ℤ)
    (hs : ∀ q ∈ analysis, ∀ p ∈ (q.2 : Dict Entry), (p.2 : Entry).score < 85/100)
    (dm nid : String) (r : MasteryRecord)
    (h : lookupRecord (apply_analysis_to_state graphs state analysis now) dm nid = some r) :
    lookupRecord state dm nid = some r ∨ r.status = compute_status r.mastery := by
  unfold apply_analysis_to_state at h
  rcases (applyAnalysis_fold_lookup analysis graphs now state state hs dm nid r).2 h with
    h2 | h2 | h2 | h2
  · exact Or.inl h2
  · exact Or.inl h2
  · rw [h2]
    exact Or.inr zeroRecord_status
  · exact Or.inr h2

theorem decayRecord_status_of_ne (now : ℤ) (r : MasteryRecord)
    (h : decayRecord now r ≠ r) :
    (decayRecord now r).status = compute_status ((decayRecord now r).mastery) := by
  cases hls : r.last_seen with
  | none => exact absurd (decayRecord_of_none now r hls) h
  | some t =>
    rcases le_or_lt (days_since now t) DECAY_GRACE_DAYS with hd | hd
    · exact absurd (decayRecord_of_fresh now r t hls hd) h
    · rw [decayRecord_of_stale now r t hls hd]

/-! ## C2 — status is a pure function of mastery, kept consistent -/

/-- C2: the status bands are `mastered` iff `m ≥ 0.85`, `strong` iff
`0.70 ≤ m < 0.85`, `developing` iff `0.40 ≤ m < 0.70`, `weak` iff
`m < 0.40`; and every record written by a challenge update, by decay, or by
a bootstrap merge (whose scores are clamped to `≤ 0.8`) stores
`status = compute_status mastery`. -/
theorem claim_C2 :
    (∀ m : ℚ,
      (compute_status m = "mastered" ↔ 85/100 ≤ m)
      ∧ (compute_status m = "strong" ↔ 70/100 ≤ m ∧ m < 85/100)
      ∧ (compute_status m = "developing" ↔ 40/100 ≤ m ∧ m < 70/100)
      ∧ (compute_status m = "weak" ↔ m < 40/100))
    ∧ (∀ (graphs : Graphs) (state : KState) (dm nid : String) (score now : ℤ)
        (st' : KState) (rec : MasteryRecord),
        update_node graphs state dm nid score now = .ok (st', rec) →
        rec.status = compute_status rec.mastery ∧ lookupRecord st' dm nid = some rec)
    ∧ (∀ (now : ℤ) (state : KState) (dm nid : String) (r r' : MasteryRecord),
        lookupRecord state dm nid = some r →
        lookupRecord (apply_decay now state) dm nid = some r' →
        r' = r ∨ r'.status = compute_status r'.mastery)
    ∧ (∀ (graphs : Graphs) (state : KState) (analysis : Dict (Dict Entry)) (now : ℤ),
        (∀ q ∈ analysis, ∀ p ∈ (q.2 : Dict Entry), (p.2 : Entry).score ≤ 8/10) →
        ∀ (dm nid : String) (r : MasteryRecord),
        lookupRecord (apply_analysis_to_state graphs state analysis now) dm nid = some r →
        lookupRecord state dm nid = some r ∨ r.status = compute_status r.mastery) := by
  refine ⟨?_, ?_, ?_, ?_⟩
  · intro m
    unfold compute_status
    split_ifs with h1 h2 h3
    · refine ⟨⟨fun _ => h1, fun _ => rfl⟩, ?_, ?_, ?_⟩
      · exact ⟨fun hco => absurd hco (by decide), fun ⟨_, hlt⟩ => absurd h1 (not_le.mpr hlt)⟩
      · exact ⟨fun hco => absurd hco (by decide), fun ⟨_, hlt⟩ => absurd h1 (by linarith)⟩
      · exact ⟨fun hco => absurd hco (by decide), fun hlt => absurd h1 (by linarith)⟩
    · refine ⟨?_, ⟨fun _ => ⟨h2, not_le.mp h1⟩, fun _ => rfl⟩, ?_, ?_⟩
      · exact ⟨fun hco => absurd hco (by decide), fun hge => absurd hge (not_le.mpr (not_le.mp h1))⟩
      · exact ⟨fun hco => absurd hco (by decide), fun ⟨_, hlt⟩ => absurd h2 (by linarith)⟩
      · exact ⟨fun hco => absurd hco (by decide), fun hlt => absurd h2 (by linarith)⟩
    · refine ⟨?_, ?_, ⟨fun _ => ⟨h3, not_le.mp h2⟩, fun _ => rfl⟩, ?_⟩
      · exact ⟨fun hco => absurd hco (by decide), fun hge => absurd hge (by push_neg at h1 ⊢; linarith)⟩
      · exact ⟨fun hco => absurd hco (by decide), fun ⟨hge, _⟩ => absurd hge (by push_neg at h2 ⊢; linarith)⟩
      · exact ⟨fun hco => absurd hco (by decide), fun hlt => absurd h3 (by linarith)⟩
    · refine ⟨?_, ?_, ?_, ⟨fun _ => not_le.mp h3, fun _ => rfl⟩⟩
      · exact ⟨fun hco => absurd hco (by decide), fun hge => absurd hge (by push_neg at h1 ⊢; linarith)⟩
      · exact ⟨fun hco => absurd hco (by decide), fun ⟨hge, _⟩ => absurd hge (by push_neg at h2 ⊢; linarith)⟩
      · exact ⟨fun hco => absurd hco (by decide), fun ⟨hge, _⟩ => absurd hge (by push_neg at h3 ⊢; linarith)⟩
  · intro graphs state dm nid score now st' rec h
    exact update_node_ok graphs state dm nid score now st' rec h
  · intro now state dm nid r r' hr hr'
    rw [lookupRecord_apply_decay, hr, Option.map_some'] at hr'
    have hr'' : r' = decayRecord now r := (Option.some.inj hr').symm
    subst hr''
    by_cases hne : decayRecord now r = r
    · exact Or.inl hne
    · exact Or.inr (decayRecord_status_of_ne now r hne)
  · intro graphs state analysis now hs dm nid r h
    refine apply_analysis_lookup graphs state analysis now ?_ dm nid r h
    intro q hq p hp
    have := hs q hq p hp
    linarith

/-- Witness for C2: the four bands at concrete mastery values, and a
concrete challenge update whose stored status is consistent. -/
theorem claim_C2_witness :
    compute_status (9/10) = "mastered"
    ∧ compute_status (75/100) = "strong"
    ∧ compute_status (1/2) = "developing"
    ∧ compute_status (1/10) = "weak"
    ∧ (∃ st' rec, update_node exampleGraphs exampleState "alpha" "a1" 2 77 = .ok (st', rec)
        ∧ rec.status = compute_status rec.mastery) := by
  refine ⟨(claim_C2.1 (9/10)).1.mpr (by norm_num),
    ((claim_C2.1 (75/100)).2.1).mpr ⟨by norm_num, by norm_num⟩,
    ((claim_C2.1 (1/2)).2.2.1).mpr ⟨by norm_num, by norm_num⟩,
    ((claim_C2.1 (1/10)).2.2.2).mpr (by norm_num), ?_⟩
  obtain ⟨⟨st', rec⟩, hp⟩ := update_node_isOk exampleGraphs ⟨[⟨"a1", "A1", 1/2⟩]⟩
    exampleState "alpha" "a1" 2 77 (by decide)
  exact ⟨st', rec, hp, (claim_C2.2.1 exampleGraphs exampleState "alpha" "a1" 2 77 st' rec hp).1⟩

/-! ## Analyzer accumulator lemmas -/

theorem dictGet_addSignal (acc : Dict Entry) (c' c : String) (d : ℚ) (tag : String) :
    dictGet (addSignal acc c' d tag) c =
      if c' = c then
        some (match dictGet acc c with
          | none => ⟨d, [tag]⟩
          | some e => ⟨e.score + d, e.signals ++ [tag]⟩)
      else dictGet acc c := by
  unfold addSignal
  rw [dictGet_dictSet]
  by_cases h : c' = c
  · subst h
    rw [if_pos rfl, if_pos rfl]
    cases hacc : dictGet acc c' <;> simp [hacc]
  · rw [if_neg h, if_neg h]

theorem foldl_addSignal_notMem : ∀ (L : List String) (acc : Dict Entry) (d : ℚ)
    (tag : String) (c : String), c ∉ L →
    dictGet (L.foldl (fun a x => addSignal a x d tag) acc) c = dictGet acc c := by
  intro L
  induction L with
  | nil => intro acc d tag c _; rfl
  | cons x rest ih =>
    intro acc d tag c hc
    have hcx : c ≠ x := fun h => hc (h ▸ List.mem_cons_self x rest)
    have hcr : c ∉ rest := fun h => hc (List.mem_cons_of_mem x h)
    have : dictGet ((x :: rest).foldl (fun a x => addSignal a x d tag) acc) c
        = dictGet (rest.foldl (fun a x => addSignal a x d tag) (addSignal acc x d tag)) c := rfl
    rw [this, ih _ d tag c hcr, dictGet_addSignal, if_neg (fun h => hcx h.symm)]

theorem foldl_addSignal_mem : ∀ (L : List String), L.Nodup → ∀ (acc : Dict Entry)
    (d : ℚ) (tag : String) (c : String), c ∈ L →
    dictGet (L.foldl (fun a x => addSignal a x d tag) acc) c =
      some (match dictGet acc c with
        | none => ⟨d, [tag]⟩
        | some e => ⟨e.score + d, e.signals ++ [tag]⟩) := by
  intro L
  induction L with
  | nil => intro _ acc d tag c hc; exact absurd hc (List.not_mem_nil c)
  | cons x rest ih =>
    intro hnd acc d tag c hc
    have hstep : dictGet ((x :: rest).foldl (fun a x => addSignal a x d tag) acc) c
        = dictGet (rest.foldl (fun a x => addSignal a x d tag) (addSignal acc x d tag)) c := rfl
    rw [hstep]
    rcases List.mem_cons.mp hc with hcx | hcr
    · subst hcx
      have hxr : c ∉ rest := (List.nodup_cons.mp hnd).1
      rw [foldl_addSignal_notMem rest _ d tag c hxr, dictGet_addSignal, if_pos rfl]
    · have hcx : x ≠ c := by
        intro h
        subst h
        exact (List.nodup_cons.mp hnd).1 hcr
      rw [ih (List.nodup_cons.mp hnd).2 _ d tag c hcr, dictGet_addSignal, if_neg hcx]

theorem mem_claude_only (t : UserTurn) (c : String) :
    c ∈ t.claudeConcepts.filter (fun x => !t.userConcepts.contains x) ↔
      c ∈ t.claudeConcepts ∧ c ∉ t.userConcepts := by
  rw [List.mem_filter]
  constructor
  · rintro ⟨h1, h2⟩
    refine ⟨h1, fun hmem => ?_⟩
    rw [Bool.not_eq_true', ← Bool.not_eq_true] at h2
    exact h2 (List.elem_eq_true_of_mem hmem)
  · rintro ⟨h1, h2⟩
    refine ⟨h1, ?_⟩
    rw [Bool.not_eq_true']
    by_contra hne
    rw [Bool.not_eq_false] at hne
    exact h2 (List.mem_of_elem_eq_true hne)

theorem dictGet_processTurn (acc : Dict Entry) (t : UserTurn) (c : String)
    (hu : t.userConcepts.Nodup) (hcl : t.claudeConcepts.Nodup) :
    dictGet (processTurn acc t) c =
      match turnTag t c with
      | none => dictGet acc c
      | some tag => some (match dictGet acc c with
          | none => ⟨turnDelta t c, [tag]⟩
          | some e => ⟨e.score + turnDelta t c, e.signals ++ [tag]⟩) := by
  unfold processTurn turnTag turnDelta
  by_cases hcu : c ∈ t.userConcepts
  · simp only [if_pos hcu]
    have hnotclaude : c ∉ t.claudeConcepts.filter (fun x => !t.userConcepts.contains x) := by
      intro hmem
      exact ((mem_claude_only t c).mp hmem).2 hcu
    rw [foldl_addSignal_notMem _ _ _ _ c hnotclaude]
    rw [foldl_addSignal_mem t.userConcepts hu acc _ _ c hcu]
  · simp only [if_neg hcu]
    by_cases hcc : c ∈ t.claudeConcepts
    · simp only [if_pos hcc]
      have hmem : c ∈ t.claudeConcepts.filter (fun x => !t.userConcepts.contains x) :=
        (mem_claude_only t c).mpr ⟨hcc, hcu⟩
      rw [foldl_addSignal_mem _ (List.Nodup.filter _ hcl) _ _ _ c hmem]
      rw [foldl_addSignal_notMem t.userConcepts acc _ _ c hcu]
    · simp only [if_neg hcc]
      have hnone : c ∉ t.claudeConcepts.filter (fun x => !t.userConcepts.contains x) := by
        intro hmem
        exact hcc ((mem_claude_only t c).mp hmem).1
      rw [foldl_addSignal_notMem _ _ _ _ c hnone]
      rw [foldl_addSignal_notMem t.userConcepts acc _ _ c hcu]

theorem turnDelta_of_tag_none (t : UserTurn) (c : String) (h : turnTag t c = none) :
    turnDelta t c = 0 := by
  unfold turnTag at h
  unfold turnDelta
  by_cases hcu : c ∈ t.userConcepts
  · rw [if_pos hcu] at h
    exact absurd h (by simp)
  · rw [if_neg hcu] at h
    rw [if_neg hcu]
    by_cases hcc : c ∈ t.claudeConcepts
    · rw [if_pos hcc] at h
      exact absurd h (by simp)
    · rw [if_neg hcc]

theorem foldl_processTurn_lookup : ∀ (turns : List UserTurn) (acc : Dict Entry)
    (c : String), (∀ t ∈ turns, t.userConcepts.Nodup ∧ t.claudeConcepts.Nodup) →
    dictGet (turns.foldl processTurn acc) c =
      match dictGet acc c with
      | none =>
        if turns.filterMap (fun t => turnTag t c) = [] then none
        else some ⟨(turns.map (fun t => turnDelta t c)).sum,
                   turns.filterMap (fun t => turnTag t c)⟩
      | some e => some ⟨e.score + (turns.map (fun t => turnDelta t c)).sum,
                        e.signals ++ turns.filterMap (fun t => turnTag t c)⟩ := by
  intro turns
  induction turns with
  | nil =>
    intro acc c _
    cases hacc : dictGet acc c <;> simp [hacc]
  | cons t ts ih =>
    intro acc c hnd
    have hstep : dictGet ((t :: ts).foldl processTurn acc) c
        = dictGet (ts.foldl processTurn (processTurn acc t)) c := rfl
    rw [hstep, ih (processTurn acc t) c (fun u hu => hnd u (List.mem_cons_of_mem t hu))]
    rw [dictGet_processTurn acc t c (hnd t (List.mem_cons_self t ts)).1
      (hnd t (List.mem_cons_self t ts)).2]
    cases htag : turnTag t c with
    | none =>
      have hdel : turnDelta t c = 0 := turnDelta_of_tag_none t c htag
      cases hacc : dictGet acc c <;>
        simp [htag, hdel, List.filterMap_cons, List.map_cons]
    | some tag =>
      cases hacc : dictGet acc c <;>
        simp [htag, List.filterMap_cons, List.map_cons, add_assoc]

theorem analyze_sessions_lookup (turns : List UserTurn) (c : String)
    (h : ∀ t ∈ turns, t.userConcepts.Nodup ∧ t.claudeConcepts.Nodup) :
    dictGet (analyze_sessions turns) c =
      if turns.filterMap (fun t => turnTag t c) = [] then none
      else some ⟨pymax 0 (pymin (8/10) ((turns.map (fun t => turnDelta t c)).sum)),
                 turns.filterMap (fun t => turnTag t c)⟩ := by
  unfold analyze_sessions clampScores
  rw [dictGet_mapValues, foldl_processTurn_lookup turns [] c h]
  have hnil : dictGet ([] : Dict Entry) c = none := rfl
  rw [hnil]
  by_cases htags : turns.filterMap (fun t => turnTag t c) = []
  · rw [if_pos htags, if_pos htags]
    rfl
  · rw [if_neg htags, if_neg htags]
    rfl

theorem analyze_sessions_score_bounds (turns : List UserTurn) (c : String) (e : Entry)
    (he : dictGet (analyze_sessions turns) c = some e) :
    0 ≤ e.score ∧ e.score ≤ 8/10 := by
  unfold analyze_sessions clampScores at he
  rw [dictGet_mapValues] at he
  cases hr : dictGet (List.foldl processTurn [] turns) c with
  | none =>
    rw [hr] at he
    exact absurd he (by simp)
  | some e0 =>
    rw [hr, Option.map_some'] at he
    have he' : e = { e0 with score := pymax 0 (pymin (8/10) e0.score) } :=
      (Option.some.inj he).symm
    rw [he']
    constructor
    · show 0 ≤ pymax 0 (pymin (8/10) e0.score)
      rw [pymax_eq_max]
      exact le_max_left 0 _
    · show pymax 0 (pymin (8/10) e0.score) ≤ 8/10
      rw [pymax_eq_max, pymin_eq_min]
      exact max_le (by norm_num) (min_le_left _ _)

/-! ## C6 — intent classification tie-break -/

/-- C6: intent is `question` iff the question-pattern count strictly
exceeds the confidence-pattern count; otherwise `assertion` iff the
confidence count is positive; otherwise `neutral`; equal nonzero counts
classify as `assertion`. -/
theorem claim_C6 (qc cc : ℕ) :
    (classify_message_intent qc cc = .question ↔ cc < qc)
    ∧ (¬ cc < qc → (classify_message_intent qc cc = .assertion ↔ 0 < cc))
    ∧ (¬ cc < qc → cc = 0 → classify_message_intent qc cc = .neutral)
    ∧ (qc = cc → 0 < cc → classify_message_intent qc cc = .assertion) := by
  unfold classify_message_intent
  refine ⟨?_, ?_, ?_, ?_⟩
  · constructor
    · intro h
      by_contra hlt
      rw [if_neg (by omega : ¬ qc > cc)] at h
      by_cases hcc : cc > 0
      · rw [if_pos hcc] at h
        exact absurd h (by simp)
      · rw [if_neg hcc] at h
        exact absurd h (by simp)
    · intro h
      rw [if_pos (by omega : qc > cc)]
  · intro hle
    rw [if_neg (by omega : ¬ qc > cc)]
    constructor
    · intro h
      by_contra hcc
      rw [if_neg (by omega : ¬ cc > 0)] at h
      exact absurd h (by simp)
    · intro h
      rw [if_pos (by omega : cc > 0)]
  · intro hle hz
    rw [if_neg (by omega : ¬ qc > cc), if_neg (by omega : ¬ cc > 0)]
  · intro heq hpos
    rw [if_neg (by omega : ¬ qc > cc), if_pos (by omega : cc > 0)]

/-- Witness for C6: equal nonzero counts (2, 2) classify as `assertion`. -/
theorem claim_C6_witness : classify_message_intent 2 2 = .assertion :=
  (claim_C6 2 2).2.2.2 rfl (by norm_num)

/-! ## C7 — analyzer scoring deltas and final clamp -/

/-- C7: a concept's final analyzer entry is the clamp to `[0, 0.8]` of the
sum of per-turn deltas, with the signal tags collected in order; a concept
detected in the user text contributes the per-intent delta
(`question → -0.15`, `assertion → +0.20`, `neutral → +0.05`) with the
matching tag, a concept detected only in the assistant reply contributes
`+0.05` with tag `claude_explained`; every final score lies in `[0, 0.8]`,
and a single question signal with no other signals yields exactly `0`. -/
theorem claim_C7 (turns : List UserTurn) (c : String)
    (h : ∀ t ∈ turns, t.userConcepts.Nodup ∧ t.claudeConcepts.Nodup) :
    (dictGet (analyze_sessions turns) c =
      if turns.filterMap (fun t => turnTag t c) = [] then none
      else some ⟨max 0 (min (8/10) ((turns.map (fun t => turnDelta t c)).sum)),
                 turns.filterMap (fun t => turnTag t c)⟩)
    ∧ (∀ qc cc, classify_message_intent qc cc = .question →
        dictGet (analyze_sessions [⟨qc, cc, [c], []⟩]) c = some ⟨0, ["question"]⟩)
    ∧ (∀ t : UserTurn,
        (c ∈ t.userConcepts →
          turnDelta t c =
            intentDelta (classify_message_intent t.question_count t.confidence_count)
          ∧ turnTag t c =
            some (intentTag (classify_message_intent t.question_count t.confidence_count)))
        ∧ (c ∉ t.userConcepts → c ∈ t.claudeConcepts →
            turnDelta t c = 5/100 ∧ turnTag t c = some "claude_explained"))
    ∧ intentDelta .question = -(15/100) ∧ intentDelta .assertion = 20/100
    ∧ intentDelta .neutral = 5/100
    ∧ intentTag .question = "question" ∧ intentTag .assertion = "assertion"
    ∧ intentTag .neutral = "neutral_user"
    ∧ (∀ e, dictGet (analyze_sessions turns) c = some e →
        0 ≤ e.score ∧ e.score ≤ 8/10) := by
  refine ⟨?_, ?_, ?_, rfl, rfl, rfl, rfl, rfl, rfl,
    fun e he => analyze_sessions_score_bounds turns c e he⟩
  · rw [analyze_sessions_lookup turns c h]
    by_cases htags : turns.filterMap (fun t => turnTag t c) = []
    · rw [if_pos htags, if_pos htags]
    · rw [if_neg htags, if_neg htags, pymax_eq_max, pymin_eq_min]
  · intro qc cc hq
    rw [analyze_sessions_lookup [⟨qc, cc, [c], []⟩] c (by simp)]
    have htag : turnTag ⟨qc, cc, [c], []⟩ c = some "question" := by
      unfold turnTag
      rw [if_pos (List.mem_singleton.mpr rfl)]
      simp only [hq]
      rfl
    have hdel : turnDelta ⟨qc, cc, [c], []⟩ c = -(15/100) := by
      unfold turnDelta
      rw [if_pos (List.mem_singleton.mpr rfl)]
      simp only [hq]
      rfl
    simp only [List.filterMap_cons, List.filterMap_nil, htag, List.map_cons,
      List.map_nil, List.sum_cons, List.sum_nil, hdel]
    rw [if_neg (by simp)]
    have hsc : pymax 0 (pymin (8/10) (-(15/100) + 0)) = (0:ℚ) := by
      rw [pymax_eq_max, pymin_eq_min]
      norm_num [min_def, max_def]
    rw [hsc]
  · intro t
    constructor
    · intro hcu
      unfold turnDelta turnTag
      rw [if_pos hcu, if_pos hcu]
      exact ⟨rfl, rfl⟩
    · intro hcu hcc
      unfold turnDelta turnTag
      rw [if_neg hcu, if_neg hcu, if_pos hcc, if_pos hcc]
      exact ⟨rfl, rfl⟩

/-- Witness for C7: a single question turn mentioning one concept yields
the entry `⟨0, ["question"]⟩`. -/
theorem claim_C7_witness :
    dictGet (analyze_sessions [⟨1, 0, ["c"], []⟩]) "c" = some ⟨0, ["question"]⟩ :=
  (claim_C7 [⟨1, 0, ["c"], []⟩] "c" (by decide)).2.1 1 0 rfl

/-! ## C8 — claude-only scores versus one assertion (corrected) -/

theorem turnTag_claude_delta (t : UserTurn) (c : String)
    (h : turnTag t c = some "claude_explained") : turnDelta t c = 5/100 := by
  unfold turnTag at h
  unfold turnDelta
  by_cases hcu : c ∈ t.userConcepts
  · rw [if_pos hcu] at h
    have := Option.some.inj h
    cases hint : classify_message_intent t.question_count t.confidence_count <;>
      rw [hint] at this <;> exact absurd this (by decide)
  · rw [if_neg hcu] at h
    rw [if_neg hcu]
    by_cases hcc : c ∈ t.claudeConcepts
    · rw [if_pos hcc]
    · rw [if_neg hcc] at h
      exact absurd h (by simp)

theorem sum_delta_of_claude_only : ∀ (turns : List UserTurn) (c : String),
    (∀ s ∈ turns.filterMap (fun t => turnTag t c), s = "claude_explained") →
    (turns.map (fun t => turnDelta t c)).sum =
      (5/100) * ((turns.filterMap (fun t => turnTag t c)).length : ℚ) := by
  intro turns
  induction turns with
  | nil => intro c _; simp
  | cons t ts ih =>
    intro c hs
    cases htag : turnTag t c with
    | none =>
      have hdel : turnDelta t c = 0 := turnDelta_of_tag_none t c htag
      have hs' : ∀ s ∈ ts.filterMap (fun t => turnTag t c), s = "claude_explained" := by
        intro s hmem
        refine hs s ?_
        simp [List.filterMap_cons, htag, hmem]
      simp [List.filterMap_cons, htag, hdel, ih c hs']
    | some s0 =>
      have hs0 : s0 = "claude_explained" := by
        refine hs s0 ?_
        simp [List.filterMap_cons, htag]
      have hdel : turnDelta t c = 5/100 := by
        refine turnTag_claude_delta t c ?_
        rw [htag, hs0]
      have hs' : ∀ s ∈ ts.filterMap (fun t => turnTag t c), s = "claude_explained" := by
        intro s hmem
        refine hs s ?_
        simp [List.filterMap_cons, htag, hmem]
      simp only [List.map_cons, List.sum_cons, List.filterMap_cons, htag,
        List.length_cons, hdel, ih c hs']
      push_cast
      ring

/-- C8 counterexample: four assistant-only mentions accumulate to exactly
`0.20`, the same score as a single user assertion — not strictly less. -/
theorem claim_C8_counterexample :
    dictGet (analyze_sessions (List.replicate 4 ⟨0, 0, [], ["c"]⟩)) "c"
      = some ⟨1/5, ["claude_explained", "claude_explained", "claude_explained",
                    "claude_explained"]⟩
    ∧ dictGet (analyze_sessions [⟨0, 1, ["c"], []⟩]) "c" = some ⟨1/5, ["assertion"]⟩
    ∧ ¬ ((1:ℚ)/5 < 1/5) := by
  refine ⟨by decide, by decide, by norm_num⟩

/-- C8 (amended): an accumulated score produced solely by
`claude_explained` signals stays strictly below the score of one direct
user assertion only while there are at most three such mentions (four
mentions reach exactly `0.20`). -/
theorem claim_C8 (turns : List UserTurn) (c : String) (e ea : Entry) (qc cc : ℕ)
    (hnod : ∀ t ∈ turns, t.userConcepts.Nodup ∧ t.claudeConcepts.Nodup)
    (he : dictGet (analyze_sessions turns) c = some e)
    (hclaude : ∀ s ∈ e.signals, s = "claude_explained")
    (hne : e.signals ≠ []) (hlen : e.signals.length ≤ 3)
    (hint : classify_message_intent qc cc = .assertion)
    (ha : dictGet (analyze_sessions [⟨qc, cc, [c], []⟩]) c = some ea) :
    e.score < ea.score := by
  rw [analyze_sessions_lookup turns c hnod] at he
  by_cases htags : turns.filterMap (fun t => turnTag t c) = []
  · rw [if_pos htags] at he
    exact absurd he (by simp)
  · rw [if_neg htags] at he
    have he' : e = ⟨pymax 0 (pymin (8/10) ((turns.map (fun t => turnDelta t c)).sum)),
        turns.filterMap (fun t => turnTag t c)⟩ := (Option.some.inj he).symm
    -- the assertion side evaluates to score 0.2
    have hatag : turnTag ⟨qc, cc, [c], []⟩ c = some "assertion" := by
      unfold turnTag
      rw [if_pos (List.mem_singleton.mpr rfl)]
      simp only [hint]
      rfl
    have hadel : turnDelta ⟨qc, cc, [c], []⟩ c = 20/100 := by
      unfold turnDelta
      rw [if_pos (List.mem_singleton.mpr rfl)]
      simp only [hint]
      rfl
    rw [analyze_sessions_lookup [⟨qc, cc, [c], []⟩] c (by simp)] at ha
    simp only [List.filterMap_cons, List.filterMap_nil, hatag, List.map_cons,
      List.map_nil, List.sum_cons, List.sum_nil, hadel] at ha
    rw [if_neg (by simp)] at ha
    have hasc : pymax 0 (pymin (8/10) ((20:ℚ)/100 + 0)) = 1/5 := by
      rw [pymax_eq_max, pymin_eq_min]
      norm_num [min_def, max_def]
    rw [hasc] at ha
    have ha' : ea = ⟨1/5, ["assertion"]⟩ := (Option.some.inj ha).symm
    -- the claude-only side sums to 0.05 * n with 1 ≤ n ≤ 3
    have hsignals : e.signals = turns.filterMap (fun t => turnTag t c) := by
      rw [he']
    have hsum : (turns.map (fun t => turnDelta t c)).sum =
        (5/100) * ((turns.filterMap (fun t => turnTag t c)).length : ℚ) := by
      refine sum_delta_of_claude_only turns c ?_
      intro s hmem
      refine hclaude s ?_
      rw [hsignals]
      exact hmem
    have hn1 : 1 ≤ (turns.filterMap (fun t => turnTag t c)).length := by
      rcases List.length_pos.mpr htags with h
      omega
    have hn3 : (turns.filterMap (fun t => turnTag t c)).length ≤ 3 := by
      rw [hsignals] at hlen
      exact hlen
    have hq1 : (1:ℚ) ≤ ((turns.filterMap (fun t => turnTag t c)).length : ℚ) := by
      exact_mod_cast hn1
    have hq3 : ((turns.filterMap (fun t => turnTag t c)).length : ℚ) ≤ 3 := by
      exact_mod_cast hn3
    rw [he', ha']
    show pymax 0 (pymin (8/10) ((turns.map (fun t => turnDelta t c)).sum)) < 1/5
    rw [pymax_eq_max, pymin_eq_min, hsum]
    have hlo : (5:ℚ)/100 ≤ (5/100) * ((turns.filterMap (fun t => turnTag t c)).length : ℚ) := by
      nlinarith
    have hhi : (5:ℚ)/100 * ((turns.filterMap (fun t => turnTag t c)).length : ℚ) ≤ 15/100 := by
      nlinarith
    rw [min_eq_right (by linarith), max_eq_right (by linarith)]
    linarith

/-- Witness for the amended C8: two assistant-only mentions score `0.10`,
strictly below one assertion's `0.20`. -/
theorem claim_C8_witness :
    dictGet (analyze_sessions (List.replicate 2 ⟨0, 0, [], ["c"]⟩)) "c"
      = some ⟨1/10, ["claude_explained", "claude_explained"]⟩
    ∧ dictGet (analyze_sessions [⟨0, 1, ["c"], []⟩]) "c" = some ⟨1/5, ["assertion"]⟩
    ∧ (1:ℚ)/10 < 1/5 := by
  have h1 : dictGet (analyze_sessions (List.replicate 2 ⟨0, 0, [], ["c"]⟩)) "c"
      = some ⟨1/10, ["claude_explained", "claude_explained"]⟩ := by decide
  have h2 : dictGet (analyze_sessions [⟨0, 1, ["c"], []⟩]) "c"
      = some ⟨1/5, ["assertion"]⟩ := by decide
  exact ⟨h1, h2,
    claim_C8 (List.replicate 2 ⟨0, 0, [], ["c"]⟩) "c" ⟨1/10, ["claude_explained",
      "claude_explained"]⟩ ⟨1/5, ["assertion"]⟩ 0 1 (by decide) h1 (by decide)
      (by decide) (by decide) rfl h2⟩

/-! ## C9 — merge loses earlier domains' updates on re-initialization -/

/-- C9: the merge claim fails on the code.  State tracks only `"alpha"`
(zero record); the analysis carries one `assertion` signal (score `0.2`)
for `alpha/a1` and one signal for `beta/b1`, `beta` not yet initialized.
Processing `beta` calls `init_domain` and re-reads the state from disk,
discarding the in-memory write to `a1`: afterwards `a1` is still the zero
record even though it had a signal.  The same single-domain merge without
`beta` does set `a1` to `(mastery 0.2, attempts 1)` as the claim states. -/
theorem claim_C9_bug :
    lookupRecord (apply_analysis_to_state exampleGraphs exampleState
      [("alpha", [("a1", ⟨1/5, ["assertion"]⟩)]),
       ("beta", [("b1", ⟨1/20, ["claude_explained"]⟩)])] 0) "alpha" "a1"
      = some zeroRecord
    ∧ zeroRecord.mastery = 0 ∧ zeroRecord.attempts = 0
    ∧ lookupRecord (apply_analysis_to_state exampleGraphs exampleState
        [("alpha", [("a1", ⟨1/5, ["assertion"]⟩)])] 0) "alpha" "a1"
      = some ⟨1/5, 1, some 0, "weak"⟩ := by
  refine ⟨by decide, rfl, rfl, by decide⟩

/-! ## C5 — priority and top-N ranking -/

theorem node_priority_pure_eq (graph : Graph) (state : KState) (domain nodeId : String)
    (node_info : GraphNode)
    (hfind : graph.nodes.find? (fun nd => nd.id = nodeId) = some node_info) :
    node_priority_pure graph state domain nodeId =
      node_info.reuse_weight *
        (1 - ((lookupRecord state domain nodeId).getD zeroRecord).mastery) := by
  unfold node_priority_pure
  rw [hfind, lookupRecord_def]
  cases hd : dictGet state.domains domain with
  | none =>
    simp [zeroRecord]
  | some ds =>
    cases hn : dictGet ds.nodes nodeId with
    | none => simp [hn, zeroRecord]
    | some ns => simp [hn]

theorem get_weak_nodes_eq (graphs : Graphs) (g : Graph) (state : KState)
    (domain : String) (n : ℕ) (hg : graphs domain = some g) :
    get_weak_nodes graphs state domain n = .ok
      (((weakNodeEntries g (weak_state graphs state domain) domain).mergeSort
        (fun a b => decide (b.2.1 ≤ a.2.1))).take n) := by
  unfold get_weak_nodes weak_state
  by_cases hc : dictContains state.domains domain = true
  · simp [load_graph, hg, hc, Bind.bind, Except.bind, pure, Except.pure]
  · rw [init_domain_eq graphs state domain g hg]
    simp [load_graph, hg, hc, init_domain_eq graphs state domain g hg,
      Bind.bind, Except.bind, pure, Except.pure, Except.toOption]

theorem weak_le_trans (a b c : String × ℚ × GraphNode × MasteryRecord)
    (hab : (fun a b => decide (b.2.1 ≤ a.2.1)) a b)
    (hbc : (fun a b => decide (b.2.1 ≤ a.2.1)) b c) :
    (fun a b => decide (b.2.1 ≤ a.2.1)) a c := by
  simp only [decide_eq_true_eq] at *
  exact le_trans hbc hab

theorem weak_le_total (a b : String × ℚ × GraphNode × MasteryRecord) :
    ((fun a b => decide (b.2.1 ≤ a.2.1)) a b
      || (fun a b => decide (b.2.1 ≤ a.2.1)) b a) = true := by
  simp only [Bool.or_eq_true, decide_eq_true_eq]
  exact (le_total b.2.1 a.2.1)

/-- C5: `priority = importance_weight * (1 - mastery)` with a missing
record treated as mastery `0`; and `top_n` returns the graph's nodes
stable-sorted by priority descending — with `n` at least the number of
nodes, the result is a permutation of the materialized declaration-order
entry list (each graph node exactly once, missing records as zero state)
and any two entries in declaration order with the first's priority at
least the second's (in particular ties) stay in that order. -/
theorem claim_C5 (graphs : Graphs) (g : Graph) (state : KState) (domain : String)
    (n : ℕ) (hg : graphs domain = some g) :
    (∀ nodeId node_info, g.nodes.find? (fun nd => nd.id = nodeId) = some node_info →
      get_node_priority graphs state domain nodeId = .ok
        (node_info.reuse_weight *
          (1 - ((lookupRecord state domain nodeId).getD zeroRecord).mastery)))
    ∧ (∃ l, get_weak_nodes graphs state domain n = .ok l
        ∧ l.Pairwise (fun a b => b.2.1 ≤ a.2.1)
        ∧ (g.nodes.length ≤ n →
            l.Perm (weakNodeEntries g (weak_state graphs state domain) domain)
            ∧ (l.map Prod.fst).Perm (g.nodes.map GraphNode.id)
            ∧ (∀ a b, List.Sublist [a, b]
                  (weakNodeEntries g (weak_state graphs state domain) domain) →
                b.2.1 ≤ a.2.1 → List.Sublist [a, b] l))) := by
  constructor
  · intro nodeId node_info hfind
    unfold get_node_priority
    rw [show load_graph graphs domain = .ok g by simp [load_graph, hg]]
    show Except.ok (node_priority_pure g state domain nodeId) = _
    rw [node_priority_pure_eq g state domain nodeId node_info hfind]
  · refine ⟨_, get_weak_nodes_eq graphs g state domain n hg, ?_, ?_⟩
    · have hsorted := List.sorted_mergeSort weak_le_trans weak_le_total
        (weakNodeEntries g (weak_state graphs state domain) domain)
      have hsub : List.Sublist
          (((weakNodeEntries g (weak_state graphs state domain) domain).mergeSort
            (fun a b => decide (b.2.1 ≤ a.2.1))).take n)
          ((weakNodeEntries g (weak_state graphs state domain) domain).mergeSort
            (fun a b => decide (b.2.1 ≤ a.2.1))) := List.take_sublist n _
      refine (hsorted.sublist hsub).imp ?_
      intro a b hab
      exact of_decide_eq_true hab
    · intro hlen
      have hlen' : ((weakNodeEntries g (weak_state graphs state domain) domain).mergeSort
          (fun a b => decide (b.2.1 ≤ a.2.1))).length ≤ n := by
        rw [List.length_mergeSort]
        unfold weakNodeEntries
        rw [List.length_map]
        exact hlen
      rw [List.take_of_length_le hlen']
      have hperm : ((weakNodeEntries g (weak_state graphs state domain) domain).mergeSort
          (fun a b => decide (b.2.1 ≤ a.2.1))).Perm
          (weakNodeEntries g (weak_state graphs state domain) domain) :=
        List.mergeSort_perm _ _
      refine ⟨hperm, ?_, ?_⟩
      · have hids : (weakNodeEntries g (weak_state graphs state domain) domain).map Prod.fst
            = g.nodes.map GraphNode.id := by
          unfold weakNodeEntries
          rw [List.map_map]
          rfl
        exact hids ▸ hperm.map Prod.fst
      · intro a b hsub hle
        exact List.pair_sublist_mergeSort weak_le_trans weak_le_total
          (decide_eq_true hle) hsub

/-- Witness for C5 on a one-node graph: the priority of the zero-mastery
node is its full weight, and the ranking comes back sorted. -/
theorem claim_C5_witness :
    get_node_priority exampleGraphs exampleState "alpha" "a1" = .ok ((1:ℚ)/2 * (1 - 0))
    ∧ ∃ l, get_weak_nodes exampleGraphs exampleState "alpha" 5 = .ok l
        ∧ l.Pairwise (fun a b => b.2.1 ≤ a.2.1) := by
  have H := claim_C5 exampleGraphs ⟨[⟨"a1", "A1", 1/2⟩]⟩ exampleState "alpha" 5 (by decide)
  constructor
  · have hp := H.1 "a1" ⟨"a1", "A1", 1/2⟩ (by decide)
    rw [hp]
    have : ((lookupRecord exampleState "alpha" "a1").getD zeroRecord).mastery = 0 := by decide
    rw [this]
  · obtain ⟨l, hl, hsort, _⟩ := H.2
    exact ⟨l, hl, hsort⟩

end SkillIssue
